import Mathlib

/-!
Shallow embedding of the whiteboard application's page-buffer lifecycle and
stroke-history subsystem (`src/script.js`), together with its persistence
gateway, layout pass and colour handling.  JavaScript arrays holding raster
snapshots are modelled as Lean lists (push appends at the back, `shift`
removes the front element, `pop` removes the last); canvas bitmaps are
modelled as explicit RGBA rasters.
-/

namespace Whiteboard

/-- RGBA pixel as held in an `ImageData` buffer (one byte per channel). -/
structure RGBA where
  r : Nat
  g : Nat
  b : Nat
  a : Nat
deriving DecidableEq, Repr

/-- Canvas bitmap: pixel dimensions plus the flat RGBA data array
(row-major, as produced by `getImageData(0,0,width,height)`). -/
structure Raster where
  width : Nat
  height : Nat
  data : List RGBA
deriving DecidableEq, Repr

/-- Raster whose data array has exactly `width * height` entries. -/
def Raster.wf (r : Raster) : Prop := r.data.length = r.width * r.height

/-- Transparent raster of the given size: the state of a canvas right after
its buffer is (re)allocated or after `clearRect` wipes it. -/
def blankRaster (w h : Nat) : Raster :=
  ⟨w, h, List.replicate (w * h) ⟨0, 0, 0, 0⟩⟩

/-- Page record from `script.js`:
`{ id, canvas, ctx, dpr, history:[], future:[], cssW, cssH }`.
`raster` is the canvas pixel buffer (its `width`/`height` fields are the
canvas buffer dimensions `canvas.width`/`canvas.height`), `styleW`/`styleH`
hold the integer number of CSS pixels written into
`canvas.style.width`/`canvas.style.height` by the layout pass, `history` is
the undo stack (most recent snapshot last) and `future` the redo stack. -/
structure Page where
  raster : Raster
  dpr : ℚ
  styleW : ℤ
  styleH : ℤ
  cssW : ℤ
  cssH : ℤ
  history : List Raster
  future : List Raster
deriving DecidableEq, Repr

/-- `state.maxHistory` in `script.js`. -/
def maxHistory : Nat := 40

/-- The recurring bounding step
`if (arr.length > state.maxHistory) arr.shift();` — `shift` removes the
frontmost, i.e. oldest, entry. -/
def trimOverflow (l : List Raster) : List Raster :=
  if maxHistory < l.length then l.drop 1 else l

/-- `pushHistory(page, force = false)`: snapshot the current bitmap
(`getImageData` over the full buffer), append it to the undo stack, clear
the redo stack unless `force` marks a baseline push, then bound the undo
stack by trimming its oldest entry. -/
def pushHistory (force : Bool) (page : Page) : Page :=
  { page with
    history := trimOverflow (page.history ++ [page.raster])
    future := if force then page.future else [] }

/-- `undo()`: no-op when the undo stack is empty; otherwise push the current
raster onto the (bounded) redo stack, pop the most recent undo entry and
restore it.  `putImageData(snap, 0, 0)` replaces the bitmap verbatim, every
snapshot having been captured at the page's current buffer dimensions (no
resize occurs between capture and restore in the modelled operations). -/
def undo (page : Page) : Page :=
  match page.history.getLast? with
  | none => page
  | some snap =>
      { page with
        raster := snap
        history := page.history.dropLast
        future := trimOverflow (page.future ++ [page.raster]) }

/-- `redo()`: symmetric to `undo` — no-op when the redo stack is empty;
otherwise push the current raster onto the (bounded) undo stack, pop the
most recent redo entry and restore it. -/
def redo (page : Page) : Page :=
  match page.future.getLast? with
  | none => page
  | some snap =>
      { page with
        raster := snap
        history := trimOverflow (page.history ++ [page.raster])
        future := page.future.dropLast }

/-- One complete drawing gesture on a page (`bindDrawingEvents`): `onDown`
takes exactly one history snapshot before any pixel changes
(`pushHistory(page)`, non-baseline), after which the move/end handlers
render the stroke, leaving the bitmap in some new state `drawn`. -/
def strokeGesture (page : Page) (drawn : Raster) : Page :=
  { pushHistory false page with raster := drawn }

/-- A sequence of complete strokes, applied left to right. -/
def applyStrokes (page : Page) (strokes : List Raster) : Page :=
  strokes.foldl strokeGesture page

/-- `clearActivePage()`: `clearRect(0,0,canvas.width,canvas.height)` under
the identity transform wipes the whole buffer to transparent. -/
def clearActivePage (page : Page) : Page :=
  { page with raster := blankRaster page.raster.width page.raster.height }

/-- The Clear button handler:
`clearActivePage(); pushHistory(getActivePage());` — the (non-baseline)
snapshot is taken after the wipe. -/
def clearAction (page : Page) : Page :=
  pushHistory false (clearActivePage page)

/-- Both stacks respect the configured depth bound. -/
def histBounded (p : Page) : Prop :=
  p.history.length ≤ maxHistory ∧ p.future.length ≤ maxHistory

/-- Dropping just enough elements from the front to leave at most
`maxHistory` entries; sequential per-push trimming is shown equal to it. -/
def dropExcess (l : List Raster) : List Raster :=
  l.drop (l.length - maxHistory)

/-- Pixel lookup in a row-major raster (an out-of-range read yields a
transparent pixel, matching a sample taken outside the source image). -/
def Raster.pixel (r : Raster) (x y : Nat) : RGBA :=
  r.data.getD (y * r.width + x) ⟨0, 0, 0, 0⟩

/-- Model of the platform `drawImage(src, 0, 0, w, h)` onto a cleared or
fresh buffer: the source raster is resampled to fill the `w × h`
destination exactly.  The repository delegates the resampling to the
browser; it is modelled here as nearest-neighbour sampling, which is the
identity copy when the dimensions are unchanged — the only case the
verified claims exercise. -/
def scaleRaster (r : Raster) (w h : Nat) : Raster :=
  ⟨w, h, (List.range (w * h)).map fun i =>
    r.pixel (i % w * r.width / w) (i / w * r.height / h)⟩

/-- Aspect-ratio constant from `script.js`: `A5.w / A5.h = 148 / 210`. -/
def A5_ASPECT : ℚ := 148 / 210

/-- JavaScript `Math.round` on the values arising here: rounds half toward
positive infinity. -/
def jround (q : ℚ) : ℤ := ⌊q + 1 / 2⌋

/-- JavaScript `Math.floor`. -/
def jfloor (q : ℚ) : ℤ := ⌊q⌋

/-- Stage measurement: `UI.pageStage.getBoundingClientRect()` width and
height in CSS pixels. -/
structure Stage where
  w : ℚ
  h : ℚ

/-- The fitted A5-portrait target rectangle computed by `layoutPageToFit`:
the available size is the stage size minus a 16px margin floored at 100,
and the largest portrait A5 rectangle fitting it is chosen (capped from
both width and height). -/
def fitTarget (stage : Stage) : ℚ × ℚ :=
  let availW := max 100 (stage.w - 16)
  let availH := max 100 (stage.h - 16)
  let targetW := availW
  let targetH := targetW / A5_ASPECT
  if availH < targetH then (availH * A5_ASPECT, availH) else (targetW, targetH)

/-- `syncBufferToDisplay(page, preserveContent)`: recompute the effective
device pixel ratio (`Math.max(1, window.devicePixelRatio || 1)`) and the
CSS size recorded in the canvas style (`Math.floor(parseFloat(style))`,
the style already holding an integer written by the layout pass).  When
the buffer dimensions and the recorded ratio already match the required
`Math.round(css × dpr)` values the call returns without touching anything
(`if (!needsResize) return;`).  Otherwise the buffer is reallocated —
which clears a canvas — at the required dimensions, and if
`preserveContent` was set the previously captured bitmap is redrawn scaled
to fill the new buffer exactly. -/
def syncBufferToDisplay (devicePixelRatio : ℚ) (page : Page)
    (preserveContent : Bool) : Page :=
  let dpr := max 1 devicePixelRatio
  let cssW := page.styleW
  let cssH := page.styleH
  if (page.raster.width : ℤ) = jround ((cssW : ℚ) * dpr) ∧
      (page.raster.height : ℤ) = jround ((cssH : ℚ) * dpr) ∧
      page.dpr = dpr then
    page
  else
    let newW := (jround ((cssW : ℚ) * dpr)).toNat
    let newH := (jround ((cssH : ℚ) * dpr)).toNat
    let raster :=
      if preserveContent then scaleRaster page.raster newW newH
      else blankRaster newW newH
    { page with dpr := dpr, raster := raster, cssW := cssW, cssH := cssH }

/-- `layoutPageToFit(page, preserve)`: write the fitted rectangle (floored
to whole CSS pixels) into the canvas style, then sync the pixel buffer to
the display size. -/
def layoutPageToFit (stage : Stage) (devicePixelRatio : ℚ) (page : Page)
    (preserve : Bool) : Page :=
  syncBufferToDisplay devicePixelRatio
    { page with
      styleW := jfloor (fitTarget stage).1
      styleH := jfloor (fitTarget stage).2 }
    preserve

/-- A freshly created `<canvas>` element has a 300 × 150 buffer. -/
def defaultCanvasRaster : Raster := blankRaster 300 150

/-- `makePage()`: allocate a fresh page record
(`{ id, canvas, ctx, dpr: 1, history: [], future: [], cssW: 0, cssH: 0 }`),
run an initial layout pass without content preservation, and push a
baseline history snapshot. -/
def makePage (stage : Stage) (devicePixelRatio : ℚ) : Page :=
  let page : Page :=
    { raster := defaultCanvasRaster, dpr := 1, styleW := 0, styleH := 0,
      cssW := 0, cssH := 0, history := [], future := [] }
  pushHistory true (layoutPageToFit stage devicePixelRatio page false)

/-- Source-over compositing of one pixel onto an opaque white background,
as performed by `fillRect('#ffffff')` followed by `drawImage(canvas,0,0)`
in `pageToBlobOpaque` / `exportActivePNG`.  The result is always opaque,
and an already-opaque pixel is reproduced verbatim (that fact is
independent of the scaler's rounding convention). -/
def overWhite (p : RGBA) : RGBA :=
  ⟨(p.r * p.a + 255 * (255 - p.a)) / 255,
   (p.g * p.a + 255 * (255 - p.a)) / 255,
   (p.b * p.a + 255 * (255 - p.a)) / 255,
   255⟩

/-- White-flattened form of a raster: every pixel composited over opaque
white. -/
def whiteFlatten (r : Raster) : Raster :=
  ⟨r.width, r.height, r.data.map overWhite⟩

/-- An encoded PNG blob.  PNG encoding is lossless, so the blob is modelled
as carrying the raster it encodes; `blobToArrayBuffer` /
`arrayBufferToBlob` convert between the blob and its stored binary buffer
byte-identically and are modelled as the identity on this content. -/
structure Blob where
  raster : Raster
deriving DecidableEq, Repr

def blobToArrayBuffer (b : Blob) : Blob := b

def arrayBufferToBlob (b : Blob) : Blob := b

/-- `pageToBlobOpaque(page)`: compose the page onto a same-size temporary
canvas filled white, then encode the result as a PNG blob. -/
def pageToBlobOpaque (page : Page) : Blob :=
  ⟨whiteFlatten page.raster⟩

/-- Persisted session record `{ id, ts, pages }` (key path `id` = session
name). -/
structure SessionRecord where
  id : String
  ts : Nat
  pages : List Blob
deriving DecidableEq, Repr

/-- The IndexedDB object store holding session records: a key-value store
keyed by the record's `id`.  `put` overwrites any record with the same key;
modelled as an association list where the most recent write shadows older
entries. -/
def Store : Type := List (String × SessionRecord)

/-- `store.put(record)`. -/
def storePut (store : Store) (rec : SessionRecord) : Store :=
  (rec.id, rec) :: store

/-- `store.get(key)`, resolving to the record or `undefined` (`null` after
the `req.result || null` coercion in `loadSession`). -/
def storeGet (store : Store) (key : String) : Option SessionRecord :=
  List.lookup key store

/-- `saveSession(sessionId, pngBlobs)`: throws
`Error('Session name required')` when the name is empty (the only falsy
string), otherwise converts each blob to a binary buffer and durably puts
`{ id, ts: Date.now(), pages }` (the write timestamp is passed in as
`ts`). -/
def saveSession (sessionId : String) (pngBlobs : List Blob) (ts : Nat)
    (store : Store) : Except String Store :=
  if sessionId = "" then .error "Session name required"
  else .ok (storePut store
    { id := sessionId, ts := ts, pages := pngBlobs.map blobToArrayBuffer })

/-- `loadSession(sessionId)`: throws `Error('Session name required')` when
the name is empty, otherwise resolves with the stored record or `null`. -/
def loadSession (sessionId : String) (store : Store) :
    Except String (Option SessionRecord) :=
  if sessionId = "" then .error "Session name required"
  else .ok (storeGet store sessionId)

/-- `drawBlobOnCanvas(blob, canvas)`: decode the blob into an image
(lossless), `clearRect` the whole canvas, then
`drawImage(img, 0, 0, canvas.width, canvas.height)` — the decoded raster
scaled to fill the buffer, drawn over a fully transparent background. -/
def drawBlobOnCanvas (blob : Blob) (canvasRaster : Raster) : Raster :=
  scaleRaster blob.raster canvasRaster.width canvasRaster.height

/-- One iteration of the `restoreFromRecord` loop: `makePage()`, draw the
stored blob onto the new canvas, wipe both history stacks, push a baseline
snapshot, and run a content-preserving layout pass. -/
def restorePage (stage : Stage) (devicePixelRatio : ℚ) (blob : Blob) :
    Page :=
  let page := makePage stage devicePixelRatio
  let page :=
    { page with raster := drawBlobOnCanvas (arrayBufferToBlob blob) page.raster }
  let page := { page with history := [], future := [] }
  let page := pushHistory true page
  layoutPageToFit stage devicePixelRatio page true

/-- `restoreFromRecord(rec)`: wipe all pages, rebuild one page per stored
buffer, then `selectPage(0)` — whose only buffer-affecting step is one
more content-preserving layout pass over the first page. -/
def restoreFromRecord (stage : Stage) (devicePixelRatio : ℚ)
    (rec : SessionRecord) : List Page :=
  (rec.pages.map (restorePage stage devicePixelRatio)).modifyHead
    (fun p => layoutPageToFit stage devicePixelRatio p true)

/-- The layout-required buffer width for a given stage and device pixel
ratio: `Math.round(Math.floor(targetW) * Math.max(1, dpr))`. -/
def requiredBufW (stage : Stage) (devicePixelRatio : ℚ) : ℤ :=
  jround ((jfloor (fitTarget stage).1 : ℚ) * max 1 devicePixelRatio)

/-- The layout-required buffer height, as `requiredBufW`. -/
def requiredBufH (stage : Stage) (devicePixelRatio : ℚ) : ℤ :=
  jround ((jfloor (fitTarget stage).2 : ℚ) * max 1 devicePixelRatio)

/-- The drawing-context state touched by colour changes: the global
`state.color`, the global `state.tool`, and the active page's
`ctx.strokeStyle`. -/
structure DrawingContext where
  color : String
  tool : String
  activeStrokeStyle : String
deriving DecidableEq, Repr

/-- `trySetStrokeStyle(cssColor)`: assign the candidate colour to a
scratch canvas context, which rejects an invalid colour specification (the
`catch` path returns `false` with nothing mutated).  The rendering layer's
validity check is external to the repository and is modelled as the oracle
`validColor`.  On success `state.color` is updated and, when the active
tool is the pen, so is the active page's `ctx.strokeStyle`. -/
def trySetStrokeStyle (validColor : String → Bool) (cssColor : String)
    (st : DrawingContext) : Bool × DrawingContext :=
  if validColor cssColor then
    (true,
      { st with
        color := cssColor
        activeStrokeStyle :=
          if st.tool = "pen" then cssColor else st.activeStrokeStyle })
  else
    (false, st)

/-- `setPenColor(cssColor)`: `if (!trySetStrokeStyle(cssColor)) return
false;` then refresh the swatch and hex field (pure UI, not modelled) and
return `true`. -/
def setPenColor (validColor : String → Bool) (cssColor : String)
    (st : DrawingContext) : Bool × DrawingContext :=
  let res := trySetStrokeStyle validColor cssColor st
  if !res.1 then (false, res.2) else (true, res.2)

/-- A concrete page with empty stacks, for witnesses. -/
def samplePageEmpty : Page :=
  { raster := ⟨1, 1, [⟨9, 9, 9, 255⟩]⟩, dpr := 1, styleW := 1, styleH := 1,
    cssW := 1, cssH := 1, history := [], future := [] }

/-- A concrete page with one history entry, for witnesses. -/
def samplePageOne : Page :=
  { raster := ⟨1, 1, [⟨1, 2, 3, 255⟩]⟩, dpr := 1, styleW := 1, styleH := 1,
    cssW := 1, cssH := 1, history := [⟨1, 1, [⟨0, 0, 0, 0⟩]⟩], future := [] }

/-- Sample rasters for witnesses. -/
def rasterA : Raster := ⟨1, 1, [⟨10, 0, 0, 255⟩]⟩

def rasterB : Raster := ⟨1, 1, [⟨0, 20, 0, 255⟩]⟩

def rasterC : Raster := ⟨1, 1, [⟨0, 0, 30, 255⟩]⟩

/-- A concrete page whose undo stack is exactly full (40 entries), for
witnesses. -/
def samplePageFull : Page :=
  { raster := rasterC, dpr := 1, styleW := 1, styleH := 1, cssW := 1,
    cssH := 1, history := rasterA :: List.replicate 39 rasterB, future := [] }

/-- A concrete drawing context, for witnesses. -/
def sampleCtx : DrawingContext :=
  { color := "#111111", tool := "pen", activeStrokeStyle := "#111111" }

/-- A concrete page whose buffer already matches its display size at
device pixel ratio 1, for witnesses. -/
def samplePage70 : Page :=
  { raster := blankRaster 70 100, dpr := 1, styleW := 70, styleH := 100,
    cssW := 70, cssH := 100, history := [], future := [] }

/-- A concrete stage whose fitted A5 rectangle is exactly 148 × 210 CSS
pixels (height-capped branch), for witnesses. -/
def sampleStage : Stage := ⟨1000, 226⟩

/-- A concrete page laid out for `sampleStage` at device pixel ratio 1,
for witnesses. -/
def samplePageFit : Page :=
  { raster := blankRaster 148 210, dpr := 1, styleW := 148, styleH := 210,
    cssW := 148, cssH := 210, history := [], future := [] }

lemma trimOverflow_length_le {l : List Raster} (h : l.length ≤ maxHistory + 1) :
    (trimOverflow l).length ≤ maxHistory := by
  unfold trimOverflow
  split
  · simp only [List.length_drop]
    omega
  · omega

lemma trim_eq_dropExcess {l : List Raster} (h : l.length ≤ maxHistory + 1) :
    trimOverflow l = dropExcess l := by
  unfold trimOverflow dropExcess
  split
  · congr 1
    omega
  · have : l.length - maxHistory = 0 := by omega
    rw [this, List.drop_zero]

lemma dropExcess_append (A B : List Raster) :
    dropExcess (dropExcess A ++ B) = dropExcess (A ++ B) := by
  unfold dropExcess
  have hA : A.length - maxHistory ≤ A.length := Nat.sub_le _ _
  rw [← List.drop_append_of_le_length hA, List.drop_drop]
  congr 1
  simp only [List.length_append, List.length_drop]
  omega

lemma trimOverflow_concat_getLast? (l : List Raster) (x : Raster) :
    (trimOverflow (l ++ [x])).getLast? = some x := by
  unfold trimOverflow
  split
  · rename_i hlen
    rcases l with _ | ⟨a, t⟩
    · simp [maxHistory] at hlen
    · rw [List.cons_append, List.drop_one, List.tail_cons, List.getLast?_concat]
  · exact List.getLast?_concat _

lemma trimOverflow_ne_nil (l : List Raster) (x : Raster) :
    trimOverflow (l ++ [x]) ≠ [] := by
  intro hcontra
  have := trimOverflow_concat_getLast? l x
  rw [hcontra] at this
  simp at this

lemma undo_concat (page : Page) (H : List Raster) (s : Raster)
    (h : page.history = H ++ [s]) :
    undo page = { page with
      raster := s
      history := H
      future := trimOverflow (page.future ++ [page.raster]) } := by
  unfold undo
  rw [h, List.getLast?_concat, List.dropLast_concat]

lemma redo_concat (page : Page) (F : List Raster) (s : Raster)
    (h : page.future = F ++ [s]) :
    redo page = { page with
      raster := s
      history := trimOverflow (page.history ++ [page.raster])
      future := F } := by
  unfold redo
  rw [h, List.getLast?_concat, List.dropLast_concat]

lemma undo_iterate (pres : List Raster) :
    ∀ (H0 : List Raster) (p : Page), p.history = H0 ++ pres →
      (undo^[pres.length] p).history = H0 ∧
      ∀ a, pres.head? = some a → (undo^[pres.length] p).raster = a := by
  induction pres with
  | nil =>
      intro H0 p hp
      refine ⟨by simpa using hp, ?_⟩
      intro a ha
      simp at ha
  | cons a rest ih =>
      intro H0 p hp
      have hsplit : p.history = (H0 ++ [a]) ++ rest := by
        simpa [List.append_assoc] using hp
      obtain ⟨hh, _⟩ := ih (H0 ++ [a]) p hsplit
      have hu := undo_concat (undo^[rest.length] p) H0 a hh
      have hlen : (a :: rest).length = rest.length + 1 := rfl
      rw [hlen, Function.iterate_succ_apply', hu]
      exact ⟨rfl, by intro a' ha'; simp at ha'; simp [ha']⟩

lemma undo_of_history_nil {p : Page} (h : p.history = []) : undo p = p := by
  unfold undo
  rw [h]
  rfl

lemma redo_of_future_nil {p : Page} (h : p.future = []) : redo p = p := by
  unfold redo
  rw [h]
  rfl

lemma undo_raster_history {p : Page} {s : Raster}
    (h : p.history.getLast? = some s) :
    (undo p).raster = s ∧ (undo p).history = p.history.dropLast := by
  unfold undo
  rw [h]
  exact ⟨rfl, rfl⟩

lemma trimOverflow_concat_dropLast (l : List Raster) (x : Raster) :
    (trimOverflow (l ++ [x])).dropLast =
      if maxHistory < l.length + 1 then l.drop 1 else l := by
  unfold trimOverflow
  have hlen : (l ++ [x]).length = l.length + 1 := by simp
  rw [hlen]
  have hmax : 1 ≤ maxHistory := by decide
  by_cases hc : maxHistory < l.length + 1
  · rw [if_pos hc, if_pos hc,
      List.drop_append_of_le_length (by omega), List.dropLast_concat]
  · rw [if_neg hc, if_neg hc, List.dropLast_concat]

lemma getLast?_drop_one {l : List Raster} (h : 2 ≤ l.length) :
    (l.drop 1).getLast? = l.getLast? := by
  obtain hnil | ⟨L, b, hLb⟩ := l.eq_nil_or_concat
  · subst hnil
    simp at h
  · rw [List.concat_eq_append] at hLb
    subst hLb
    rw [List.drop_append_of_le_length (by simp at h ⊢; omega),
      List.getLast?_concat, List.getLast?_concat]

lemma push_evicts_oldest {p : Page} (hlen : p.history.length = maxHistory) :
    (pushHistory false p).history = p.history.drop 1 ++ [p.raster] := by
  show trimOverflow (p.history ++ [p.raster]) = _
  unfold trimOverflow
  have hmax : 1 ≤ maxHistory := by decide
  rw [if_pos (by simp [hlen]),
    List.drop_append_of_le_length (by omega)]

/-- C8: undo on a page whose undo stack is empty is a no-op that leaves the
page's raster, undo stack and redo stack unchanged (it leaves the whole
page record unchanged); symmetrically, redo on a page whose redo stack is
empty is a no-op. -/
theorem undo_redo_empty_noop (p : Page) :
    (p.history = [] → undo p = p) ∧ (p.future = [] → redo p = p) :=
  ⟨undo_of_history_nil, redo_of_future_nil⟩

theorem undo_redo_empty_noop_witness :
    undo samplePageEmpty = samplePageEmpty ∧ redo samplePageEmpty = samplePageEmpty :=
  ⟨(undo_redo_empty_noop samplePageEmpty).1 rfl,
   (undo_redo_empty_noop samplePageEmpty).2 rfl⟩

/-- C4: for every page with a non-empty undo stack, calling undo and then
immediately redo (no other operation in between) leaves the page's raster
equal, pixel for pixel, to the raster present before the undo. -/
theorem undo_then_redo_restores (p : Page) (h : p.history ≠ []) :
    (redo (undo p)).raster = p.raster := by
  obtain hnil | ⟨H, s, hHs⟩ := p.history.eq_nil_or_concat
  · exact absurd hnil h
  · rw [List.concat_eq_append] at hHs
    rw [undo_concat p H s hHs]
    obtain hfnil | ⟨F, t, hFt⟩ :=
      (trimOverflow (p.future ++ [p.raster])).eq_nil_or_concat
    · exact absurd hfnil (trimOverflow_ne_nil _ _)
    · rw [List.concat_eq_append] at hFt
      have hlast := trimOverflow_concat_getLast? p.future p.raster
      rw [hFt, List.getLast?_concat] at hlast
      have ht : t = p.raster := by injection hlast
      rw [redo_concat _ F t hFt, ht]

theorem undo_then_redo_restores_witness :
    (redo (undo samplePageOne)).raster = samplePageOne.raster :=
  undo_then_redo_restores samplePageOne (by simp [samplePageOne])

/-- C3: a non-baseline snapshot push (the push performed at the start of
every stroke) empties the redo stack, so redo is unavailable after a fresh
stroke follows an undo; a push marked as baseline leaves the redo stack
untouched. -/
theorem push_clears_future (p : Page) (r : Raster) :
    (pushHistory false p).future = [] ∧
    (pushHistory true p).future = p.future ∧
    (strokeGesture (undo p) r).future = [] :=
  ⟨rfl, rfl, rfl⟩

lemma applyStrokes_cons (p : Page) (r : Raster) (rest : List Raster) :
    applyStrokes p (r :: rest) = applyStrokes (strokeGesture p r) rest := rfl

lemma strokeGesture_history (p : Page) (r : Raster) :
    (strokeGesture p r).history = trimOverflow (p.history ++ [p.raster]) := rfl

lemma applyStrokes_spec (strokes : List Raster) :
    ∀ p : Page, p.history.length ≤ maxHistory → strokes ≠ [] →
      (applyStrokes p strokes).history =
        dropExcess (p.history ++ p.raster :: strokes.dropLast) ∧
      (applyStrokes p strokes).raster = strokes.getLastD p.raster := by
  induction strokes with
  | nil =>
      intro p hp hne
      exact absurd rfl hne
  | cons r rest ih =>
      intro p hp hne
      have hlen1 : (p.history ++ [p.raster]).length ≤ maxHistory + 1 := by
        simp only [List.length_append, List.length_cons, List.length_nil]
        omega
      rcases eq_or_ne rest [] with rfl | hrest
      · refine ⟨?_, rfl⟩
        show (strokeGesture p r).history = _
        rw [strokeGesture_history, trim_eq_dropExcess hlen1]
        rfl
      · rw [applyStrokes_cons]
        obtain ⟨hh, hr⟩ := ih (strokeGesture p r)
          (by rw [strokeGesture_history]; exact trimOverflow_length_le hlen1)
          hrest
        constructor
        · rw [hh, strokeGesture_history, trim_eq_dropExcess hlen1,
            dropExcess_append]
          congr 1
          rw [List.append_assoc]
          congr 1
          rw [List.dropLast_cons_of_ne_nil hrest]
          rfl
        · rw [hr]
          rw [List.getLastD_cons]
          rfl

/-- C1: for every page and every sequence of N complete strokes (each stroke
pushes exactly one history snapshot at gesture start) followed by N undo
calls, with N at most the history depth bound of 40 and no buffer resize in
between, the page's raster afterwards equals its raster before the first
stroke. -/
theorem strokes_then_undos_roundtrip (p : Page) (strokes : List Raster)
    (hp : p.history.length ≤ maxHistory) (hn : strokes.length ≤ maxHistory) :
    (undo^[strokes.length] (applyStrokes p strokes)).raster = p.raster := by
  rcases eq_or_ne strokes [] with rfl | hne
  · rfl
  · have hpos : 0 < strokes.length := List.length_pos.mpr hne
    obtain ⟨hh, _⟩ := applyStrokes_spec strokes p hp hne
    have hpres : (p.raster :: strokes.dropLast).length = strokes.length := by
      simp only [List.length_cons, List.length_dropLast]
      omega
    have hsplit : dropExcess (p.history ++ p.raster :: strokes.dropLast) =
        p.history.drop
            ((p.history ++ p.raster :: strokes.dropLast).length - maxHistory)
          ++ p.raster :: strokes.dropLast := by
      unfold dropExcess
      exact List.drop_append_of_le_length
        (by simp only [List.length_append, List.length_cons,
              List.length_dropLast]; omega)
    rw [hsplit] at hh
    obtain ⟨_, hr⟩ := undo_iterate (p.raster :: strokes.dropLast) _ _ hh
    have hres := hr p.raster rfl
    rw [hpres] at hres
    exact hres

theorem strokes_then_undos_roundtrip_witness :
    (undo^[2] (applyStrokes samplePageEmpty [rasterA, rasterB])).raster =
      samplePageEmpty.raster :=
  strokes_then_undos_roundtrip samplePageEmpty [rasterA, rasterB]
    (by decide) (by decide)

/-- C2: after every operation (snapshot push, undo, redo), the undo stack
length and the redo stack length each never exceed 40; pushing a snapshot
when the undo stack already holds 40 entries evicts the oldest entry, and
undoing 40 times from that state cannot recover the evicted state (the
evicted raster being distinct from all other stack entries and from the
current raster). -/
theorem history_bound_and_eviction :
    (∀ (p : Page) (force : Bool),
        histBounded p → histBounded (pushHistory force p)) ∧
    (∀ p : Page, histBounded p → histBounded (undo p)) ∧
    (∀ p : Page, histBounded p → histBounded (redo p)) ∧
    (∀ p : Page, p.history.length = maxHistory →
        (pushHistory false p).history = p.history.drop 1 ++ [p.raster]) ∧
    (∀ (p : Page) (e : Raster), p.history.length = maxHistory →
        p.history.head? = some e → e ∉ p.history.drop 1 → e ≠ p.raster →
        ∀ k, k ≤ maxHistory →
          (undo^[k] (pushHistory false p)).raster ≠ e) := by
  refine ⟨?_, ?_, ?_, fun p h => push_evicts_oldest h, ?_⟩
  · intro p force hb
    obtain ⟨h1, h2⟩ := hb
    constructor
    · exact trimOverflow_length_le
        (by simp only [List.length_append, List.length_cons,
              List.length_nil]; omega)
    · show (if force then p.future else []).length ≤ maxHistory
      cases force
      · simp
      · simpa using h2
  · intro p hb
    obtain ⟨h1, h2⟩ := hb
    obtain hnil | ⟨H, s, hHs⟩ := p.history.eq_nil_or_concat
    · rw [undo_of_history_nil hnil]
      exact ⟨h1, h2⟩
    · rw [List.concat_eq_append] at hHs
      rw [undo_concat p H s hHs]
      constructor
      · show H.length ≤ maxHistory
        have : p.history.length = H.length + 1 := by simp [hHs]
        omega
      · exact trimOverflow_length_le
          (by simp only [List.length_append, List.length_cons,
                List.length_nil]; omega)
  · intro p hb
    obtain ⟨h1, h2⟩ := hb
    obtain hnil | ⟨F, t, hFt⟩ := p.future.eq_nil_or_concat
    · rw [redo_of_future_nil hnil]
      exact ⟨h1, h2⟩
    · rw [List.concat_eq_append] at hFt
      rw [redo_concat p F t hFt]
      constructor
      · exact trimOverflow_length_le
          (by simp only [List.length_append, List.length_cons,
                List.length_nil]; omega)
      · show F.length ≤ maxHistory
        have : p.future.length = F.length + 1 := by simp [hFt]
        omega
  · intro p e hlen hhead hnin hne k hk
    have hq : (pushHistory false p).history =
        p.history.drop 1 ++ [p.raster] := push_evicts_oldest hlen
    have hmax : 1 ≤ maxHistory := by decide
    rcases Nat.eq_zero_or_pos k with rfl | hkpos
    · simpa using fun hcontra => hne hcontra.symm
    · set N := p.history.drop 1 ++ [p.raster] with hN
      have hNlen : N.length = maxHistory := by
        simp only [hN, List.length_append, List.length_drop,
          List.length_cons, List.length_nil]
        omega
      have hsplit : (pushHistory false p).history =
          N.take (maxHistory - k) ++ N.drop (maxHistory - k) := by
        rw [hq, List.take_append_drop]
      have hpreslen : (N.drop (maxHistory - k)).length = k := by
        simp only [List.length_drop]
        omega
      have hpresne : N.drop (maxHistory - k) ≠ [] := by
        intro hcontra
        have := congrArg List.length hcontra
        rw [hpreslen] at this
        simp at this
        omega
      obtain ⟨a, rest, ha⟩ := List.exists_cons_of_ne_nil hpresne
      obtain ⟨_, hr⟩ := undo_iterate (N.drop (maxHistory - k))
        (N.take (maxHistory - k)) (pushHistory false p) hsplit
      have hres := hr a (by rw [ha]; rfl)
      rw [hpreslen] at hres
      rw [hres]
      have hamem : a ∈ N := by
        apply List.mem_of_mem_drop (n := maxHistory - k)
        rw [ha]
        exact List.mem_cons_self a rest
      rw [hN] at hamem
      rcases List.mem_append.mp hamem with hmem | hmem
      · intro hcontra
        rw [hcontra] at hmem
        exact hnin hmem
      · simp only [List.mem_singleton] at hmem
        rw [hmem]
        exact fun hcontra => hne hcontra.symm

theorem history_bound_and_eviction_witness :
    histBounded (pushHistory false samplePageFull) ∧
    histBounded (undo samplePageFull) ∧
    histBounded (redo samplePageFull) ∧
    (pushHistory false samplePageFull).history =
      samplePageFull.history.drop 1 ++ [samplePageFull.raster] ∧
    (undo^[2] (pushHistory false samplePageFull)).raster ≠ rasterA := by
  obtain ⟨w1, w2, w3, w4, w5⟩ := history_bound_and_eviction
  exact ⟨w1 samplePageFull false ⟨by decide, by decide⟩,
    w2 samplePageFull ⟨by decide, by decide⟩,
    w3 samplePageFull ⟨by decide, by decide⟩,
    w4 samplePageFull (by decide),
    w5 samplePageFull rasterA (by decide) rfl (by decide) (by decide)
      2 (by decide)⟩

lemma clearAction_history (p : Page) :
    (clearAction p).history =
      trimOverflow
        (p.history ++ [blankRaster p.raster.width p.raster.height]) := rfl

/-- C10: the clear action snapshots the raster after clearing, not before:
for every page with drawn content, performing clear leaves the blank raster
as the top undo-stack entry, so a single undo after a clear leaves the page
blank, and the pre-clear content is recovered only by a second undo (the
second undo restores the most recent snapshot taken before the clear, so
the drawn content comes back only if such a snapshot captured it). -/
theorem clear_snapshots_after_wipe (p : Page) :
    (clearAction p).history.getLast? =
        some (blankRaster p.raster.width p.raster.height) ∧
    (undo (clearAction p)).raster =
        blankRaster p.raster.width p.raster.height ∧
    ∀ s, p.history.getLast? = some s →
      (undo (undo (clearAction p))).raster = s := by
  have hq : (clearAction p).history.getLast? =
      some (blankRaster p.raster.width p.raster.height) := by
    rw [clearAction_history]
    exact trimOverflow_concat_getLast? _ _
  refine ⟨hq, (undo_raster_history hq).1, ?_⟩
  intro s hs
  have hdl : (undo (clearAction p)).history.getLast? = some s := by
    rw [(undo_raster_history hq).2, clearAction_history,
      trimOverflow_concat_dropLast]
    have hmax : 2 ≤ maxHistory := by decide
    by_cases hc : maxHistory < p.history.length + 1
    · rw [if_pos hc]
      exact (getLast?_drop_one (by omega)).trans hs
    · rw [if_neg hc]
      exact hs
  exact (undo_raster_history hdl).1

theorem clear_snapshots_after_wipe_witness :
    (undo (undo (clearAction samplePageOne))).raster = ⟨1, 1, [⟨0, 0, 0, 0⟩]⟩ :=
  (clear_snapshots_after_wipe samplePageOne).2.2 ⟨1, 1, [⟨0, 0, 0, 0⟩]⟩ rfl

/-- C6: save with an empty session name and load with an empty session
name both fail with the InvalidName error (the
`Error('Session name required')` throw); load of a non-empty name that has
no stored record resolves to null (a not-found signal) without throwing. -/
theorem empty_name_fails_missing_is_null (blobs : List Blob) (ts : Nat)
    (store : Store) (name : String) (hname : name ≠ "")
    (habsent : storeGet store name = none) :
    saveSession "" blobs ts store = .error "Session name required" ∧
    loadSession "" store = .error "Session name required" ∧
    loadSession name store = .ok none := by
  refine ⟨rfl, rfl, ?_⟩
  unfold loadSession
  rw [if_neg hname, habsent]

theorem empty_name_fails_missing_is_null_witness :
    saveSession "" [] 0 ([] : Store) = .error "Session name required" ∧
    loadSession "" ([] : Store) = .error "Session name required" ∧
    loadSession "missing" ([] : Store) = .ok none :=
  empty_name_fails_missing_is_null [] 0 [] "missing" (by simp) rfl

/-- C9: setting the pen colour to a colour specification rejected by the
rendering layer reports failure (returns false) and leaves the previously
set colour unchanged, in both the global drawing context and the active
page's stroke style. -/
theorem invalid_color_rejected (validColor : String → Bool)
    (cssColor : String) (st : DrawingContext)
    (hinvalid : validColor cssColor = false) :
    trySetStrokeStyle validColor cssColor st = (false, st) ∧
    setPenColor validColor cssColor st = (false, st) := by
  have h1 : trySetStrokeStyle validColor cssColor st = (false, st) := by
    unfold trySetStrokeStyle
    rw [hinvalid]
    rfl
  refine ⟨h1, ?_⟩
  unfold setPenColor
  rw [h1]
  rfl

theorem invalid_color_rejected_witness :
    trySetStrokeStyle (fun _ => false) "no-such-colour" sampleCtx =
        (false, sampleCtx) ∧
    setPenColor (fun _ => false) "no-such-colour" sampleCtx =
        (false, sampleCtx) :=
  invalid_color_rejected (fun _ => false) "no-such-colour" sampleCtx rfl

lemma jround_nonneg {q : ℚ} (h : 0 ≤ q) : 0 ≤ jround q := by
  unfold jround
  exact Int.floor_nonneg.mpr (by linarith)

lemma fitTarget_nonneg (stage : Stage) :
    0 ≤ (fitTarget stage).1 ∧ 0 ≤ (fitTarget stage).2 := by
  have hw : (0 : ℚ) ≤ max 100 (stage.w - 16) :=
    le_trans (by norm_num) (le_max_left _ _)
  have hh : (0 : ℚ) ≤ max 100 (stage.h - 16) :=
    le_trans (by norm_num) (le_max_left _ _)
  have ha : (0 : ℚ) ≤ A5_ASPECT := by norm_num [A5_ASPECT]
  simp only [fitTarget]
  constructor
  · split
    · exact mul_nonneg hh ha
    · exact hw
  · split
    · exact hh
    · exact div_nonneg hw ha

lemma sync_noop {devicePixelRatio : ℚ} {p : Page} {pres : Bool}
    (h : (p.raster.width : ℤ) =
          jround ((p.styleW : ℚ) * max 1 devicePixelRatio) ∧
        (p.raster.height : ℤ) =
          jround ((p.styleH : ℚ) * max 1 devicePixelRatio) ∧
        p.dpr = max 1 devicePixelRatio) :
    syncBufferToDisplay devicePixelRatio p pres = p := by
  simp only [syncBufferToDisplay]
  split
  · rfl
  · rename_i hcond
    exact absurd h hcond

lemma sync_establishes (devicePixelRatio : ℚ) (p : Page) (pres : Bool)
    (h0W : 0 ≤ p.styleW) (h0H : 0 ≤ p.styleH) :
    ((syncBufferToDisplay devicePixelRatio p pres).raster.width : ℤ) =
        jround (((syncBufferToDisplay devicePixelRatio p pres).styleW : ℚ) *
          max 1 devicePixelRatio) ∧
    ((syncBufferToDisplay devicePixelRatio p pres).raster.height : ℤ) =
        jround (((syncBufferToDisplay devicePixelRatio p pres).styleH : ℚ) *
          max 1 devicePixelRatio) ∧
    (syncBufferToDisplay devicePixelRatio p pres).dpr =
        max 1 devicePixelRatio ∧
    (syncBufferToDisplay devicePixelRatio p pres).styleW = p.styleW ∧
    (syncBufferToDisplay devicePixelRatio p pres).styleH = p.styleH := by
  have e1 : (1 : ℚ) ≤ max 1 devicePixelRatio := le_max_left _ _
  have hWq : (0 : ℚ) ≤ (p.styleW : ℚ) * max 1 devicePixelRatio :=
    mul_nonneg (by exact_mod_cast h0W) (by linarith)
  have hHq : (0 : ℚ) ≤ (p.styleH : ℚ) * max 1 devicePixelRatio :=
    mul_nonneg (by exact_mod_cast h0H) (by linarith)
  simp only [syncBufferToDisplay]
  split
  · rename_i hcond
    exact ⟨hcond.1, hcond.2.1, hcond.2.2, rfl, rfl⟩
  · refine ⟨?_, ?_, rfl, rfl, rfl⟩
    · cases pres
      · exact Int.toNat_of_nonneg (jround_nonneg hWq)
      · exact Int.toNat_of_nonneg (jround_nonneg hWq)
    · cases pres
      · exact Int.toNat_of_nonneg (jround_nonneg hHq)
      · exact Int.toNat_of_nonneg (jround_nonneg hHq)

lemma page_update_style_eq {q : Page} {sW sH : ℤ}
    (hW : q.styleW = sW) (hH : q.styleH = sH) :
    ({ q with styleW := sW, styleH := sH } : Page) = q := by
  cases q
  subst hW
  subst hH
  rfl

lemma layout_twice (stage : Stage) (devicePixelRatio : ℚ) (p : Page)
    (pres1 pres2 : Bool) :
    layoutPageToFit stage devicePixelRatio
        (layoutPageToFit stage devicePixelRatio p pres1) pres2 =
      layoutPageToFit stage devicePixelRatio p pres1 := by
  have hft := fitTarget_nonneg stage
  have h0W : 0 ≤ jfloor (fitTarget stage).1 := Int.floor_nonneg.mpr hft.1
  have h0H : 0 ≤ jfloor (fitTarget stage).2 := Int.floor_nonneg.mpr hft.2
  set p' : Page :=
    { p with
      styleW := jfloor (fitTarget stage).1
      styleH := jfloor (fitTarget stage).2 } with hp'
  have hest := sync_establishes devicePixelRatio p' pres1 h0W h0H
  show layoutPageToFit stage devicePixelRatio
      (syncBufferToDisplay devicePixelRatio p' pres1) pres2 =
    syncBufferToDisplay devicePixelRatio p' pres1
  unfold layoutPageToFit
  rw [page_update_style_eq hest.2.2.2.1 hest.2.2.2.2]
  exact sync_noop ⟨hest.1, hest.2.1, hest.2.2.1⟩

/-- C7: calling layout twice in a row with unchanged container size and
device pixel ratio performs no buffer reallocation on the second call and
leaves the raster bit-for-bit unchanged (the second call returns the page
state unchanged); the buffer sync step is a no-op whenever the current
buffer dimensions and recorded pixel ratio already equal the required
round(display size × device-pixel-ratio) values. -/
theorem layout_noop_and_idempotent (stage : Stage) (devicePixelRatio : ℚ)
    (p : Page) (pres1 pres2 pres3 : Bool) :
    (((p.raster.width : ℤ) =
          jround ((p.styleW : ℚ) * max 1 devicePixelRatio) ∧
      (p.raster.height : ℤ) =
          jround ((p.styleH : ℚ) * max 1 devicePixelRatio) ∧
      p.dpr = max 1 devicePixelRatio) →
        syncBufferToDisplay devicePixelRatio p pres1 = p) ∧
    layoutPageToFit stage devicePixelRatio
        (layoutPageToFit stage devicePixelRatio p pres2) pres3 =
      layoutPageToFit stage devicePixelRatio p pres2 :=
  ⟨fun h => sync_noop h, layout_twice stage devicePixelRatio p pres2 pres3⟩

lemma samplePage70_cond :
    ((samplePage70.raster.width : ℤ) =
        jround ((samplePage70.styleW : ℚ) * max 1 (1 : ℚ)) ∧
      (samplePage70.raster.height : ℤ) =
        jround ((samplePage70.styleH : ℚ) * max 1 (1 : ℚ)) ∧
      samplePage70.dpr = max 1 (1 : ℚ)) := by
  refine ⟨?_, ?_, by simp [samplePage70]⟩ <;>
    norm_num [samplePage70, blankRaster, jround]

theorem layout_noop_and_idempotent_witness :
    syncBufferToDisplay 1 samplePage70 true = samplePage70 :=
  (layout_noop_and_idempotent ⟨100, 200⟩ 1 samplePage70 true true true).1
    samplePage70_cond

lemma blankRaster_wf (w h : Nat) : (blankRaster w h).wf := by
  simp [blankRaster, Raster.wf]

lemma scaleRaster_self {r : Raster} (h : r.wf) :
    scaleRaster r r.width r.height = r := by
  obtain ⟨w, ht, data⟩ := r
  unfold Raster.wf at h
  dsimp only at h
  unfold scaleRaster
  dsimp only
  congr 1
  apply List.ext_getElem
  · simp [h]
  · intro i h1 h2
    simp only [List.getElem_map, List.getElem_range]
    have hiwh : i < w * ht := by simpa using h1
    have hw : 0 < w := by
      rcases Nat.eq_zero_or_pos w with rfl | hw
      · simp at hiwh
      · exact hw
    have hht : 0 < ht := by
      rcases Nat.eq_zero_or_pos ht with rfl | hht
      · simp at hiwh
      · exact hht
    unfold Raster.pixel
    dsimp only
    rw [Nat.mul_div_cancel _ hw, Nat.mul_div_cancel _ hht]
    have hidx : i / w * w + i % w = i := by
      rw [Nat.mul_comm]
      exact Nat.div_add_mod i w
    rw [hidx]
    exact List.getD_eq_getElem data _ (by omega)

lemma overWhite_overWhite (p : RGBA) :
    overWhite (overWhite p) = overWhite p := by
  unfold overWhite
  simp only [RGBA.mk.injEq, and_true]
  refine ⟨?_, ?_, ?_⟩ <;> omega

lemma whiteFlatten_idem (r : Raster) :
    whiteFlatten (whiteFlatten r) = whiteFlatten r := by
  unfold whiteFlatten
  dsimp only
  rw [List.map_map]
  congr 1
  apply List.map_congr_left
  intro p _
  exact overWhite_overWhite p

lemma whiteFlatten_wf {r : Raster} (h : r.wf) : (whiteFlatten r).wf := by
  unfold Raster.wf at h ⊢
  simp only [whiteFlatten, List.length_map]
  exact h

lemma requiredBuf_nonneg (stage : Stage) (d : ℚ) :
    0 ≤ requiredBufW stage d ∧ 0 ≤ requiredBufH stage d := by
  have hft := fitTarget_nonneg stage
  have e1 : (1 : ℚ) ≤ max 1 d := le_max_left _ _
  have h1 : (0 : ℚ) ≤ (jfloor (fitTarget stage).1 : ℚ) := by
    exact_mod_cast Int.floor_nonneg.mpr hft.1
  have h2 : (0 : ℚ) ≤ (jfloor (fitTarget stage).2 : ℚ) := by
    exact_mod_cast Int.floor_nonneg.mpr hft.2
  exact ⟨jround_nonneg (mul_nonneg h1 (by linarith)),
    jround_nonneg (mul_nonneg h2 (by linarith))⟩

lemma makePage_spec (stage : Stage) (d : ℚ) :
    (makePage stage d).raster =
        blankRaster (requiredBufW stage d).toNat
          (requiredBufH stage d).toNat ∧
    (makePage stage d).dpr = max 1 d ∧
    (makePage stage d).styleW = jfloor (fitTarget stage).1 ∧
    (makePage stage d).styleH = jfloor (fitTarget stage).2 ∧
    (makePage stage d).history =
        [blankRaster (requiredBufW stage d).toNat
          (requiredBufH stage d).toNat] ∧
    (makePage stage d).future = [] := by
  unfold makePage layoutPageToFit requiredBufW requiredBufH
  simp only [syncBufferToDisplay]
  split
  · rename_i hcond
    obtain ⟨hc1, hc2, hc3⟩ := hcond
    have h300 : jround ((jfloor (fitTarget stage).1 : ℚ) * max 1 d) =
        (300 : ℤ) := hc1.symm
    have h150 : jround ((jfloor (fitTarget stage).2 : ℚ) * max 1 d) =
        (150 : ℤ) := hc2.symm
    rw [h300, h150]
    exact ⟨rfl, hc3, rfl, rfl, rfl, rfl⟩
  · exact ⟨rfl, rfl, rfl, rfl, rfl, rfl⟩

lemma restorePage_spec (stage : Stage) (d : ℚ) (blob : Blob)
    (hW : blob.raster.width = (requiredBufW stage d).toNat)
    (hH : blob.raster.height = (requiredBufH stage d).toNat)
    (hwf : blob.raster.wf) :
    (restorePage stage d blob).raster = blob.raster ∧
    layoutPageToFit stage d (restorePage stage d blob) true =
      restorePage stage d blob := by
  obtain ⟨m1, m2, m3, m4, m5, m6⟩ := makePage_spec stage d
  have hreq := requiredBuf_nonneg stage d
  have hdraw : drawBlobOnCanvas blob (makePage stage d).raster =
      blob.raster := by
    unfold drawBlobOnCanvas
    rw [m1]
    show scaleRaster blob.raster (requiredBufW stage d).toNat
        (requiredBufH stage d).toNat = blob.raster
    rw [← hW, ← hH]
    exact scaleRaster_self hwf
  set p4 : Page := pushHistory true
    { makePage stage d with
      raster := drawBlobOnCanvas blob (makePage stage d).raster,
      history := [], future := [] } with hp4
  have hrp : restorePage stage d blob = layoutPageToFit stage d p4 true :=
    rfl
  have h4r : p4.raster = blob.raster := hdraw
  have h4sW : p4.styleW = jfloor (fitTarget stage).1 := m3
  have h4sH : p4.styleH = jfloor (fitTarget stage).2 := m4
  have h4d : p4.dpr = max 1 d := m2
  have hcond : (p4.raster.width : ℤ) = jround ((p4.styleW : ℚ) * max 1 d) ∧
      (p4.raster.height : ℤ) = jround ((p4.styleH : ℚ) * max 1 d) ∧
      p4.dpr = max 1 d := by
    refine ⟨?_, ?_, h4d⟩
    · rw [h4r, hW, h4sW]
      exact Int.toNat_of_nonneg hreq.1
    · rw [h4r, hH, h4sH]
      exact Int.toNat_of_nonneg hreq.2
  have hlayout : layoutPageToFit stage d p4 true = p4 := by
    unfold layoutPageToFit
    rw [page_update_style_eq h4sW h4sH]
    exact sync_noop hcond
  constructor
  · rw [hrp, hlayout]
    exact h4r
  · rw [hrp, hlayout]
    exact hlayout

lemma blobToArrayBuffer_map (l : List Blob) :
    l.map blobToArrayBuffer = l := by
  have hid : blobToArrayBuffer = id := rfl
  rw [hid, List.map_id]

/-- C5: for every non-empty session name and page collection, save(name,
pages) followed by load(name), with the container size and device pixel
ratio unchanged (each original page's buffer having the layout-required
dimensions for that container and ratio), reconstructs a page collection
whose white-flattened rasters are pixel-equal to the white-flattened
rasters of the original pages (erased/transparent regions become white in
both). -/
theorem save_load_roundtrip (stage : Stage) (d : ℚ) (ts : Nat)
    (name : String) (pages : List Page) (store : Store)
    (hname : name ≠ "")
    (hdims : ∀ p ∈ pages,
      p.raster.width = (requiredBufW stage d).toNat ∧
      p.raster.height = (requiredBufH stage d).toNat ∧
      p.raster.wf) :
    ∃ (store' : Store) (rec : SessionRecord),
      saveSession name (pages.map pageToBlobOpaque) ts store = .ok store' ∧
      loadSession name store' = .ok (some rec) ∧
      (restoreFromRecord stage d rec).map (fun p => whiteFlatten p.raster) =
        pages.map (fun p => whiteFlatten p.raster) := by
  refine ⟨storePut store
      { id := name, ts := ts,
        pages := (pages.map pageToBlobOpaque).map blobToArrayBuffer },
    { id := name, ts := ts,
      pages := (pages.map pageToBlobOpaque).map blobToArrayBuffer },
    ?_, ?_, ?_⟩
  · unfold saveSession
    rw [if_neg hname]
  · unfold loadSession storeGet storePut
    rw [if_neg hname]
    simp [List.lookup]
  · have hspec : ∀ b ∈ pages.map pageToBlobOpaque,
        (restorePage stage d b).raster = b.raster ∧
        layoutPageToFit stage d (restorePage stage d b) true =
          restorePage stage d b := by
      intro b hb
      obtain ⟨p, hp, rfl⟩ := List.mem_map.mp hb
      obtain ⟨hW, hH, hwf⟩ := hdims p hp
      exact restorePage_spec stage d (pageToBlobOpaque p) hW hH
        (whiteFlatten_wf hwf)
    unfold restoreFromRecord
    dsimp only
    rw [blobToArrayBuffer_map]
    have hmod : ((pages.map pageToBlobOpaque).map
          (restorePage stage d)).modifyHead
        (fun p => layoutPageToFit stage d p true) =
        (pages.map pageToBlobOpaque).map (restorePage stage d) := by
      cases hpp : pages.map pageToBlobOpaque with
      | nil => rfl
      | cons b bs =>
          simp only [List.map_cons, List.modifyHead]
          rw [(hspec b (by rw [hpp]; exact List.mem_cons_self b bs)).2]
    rw [hmod, List.map_map, List.map_map]
    apply List.map_congr_left
    intro p hp
    show whiteFlatten (restorePage stage d (pageToBlobOpaque p)).raster =
      whiteFlatten p.raster
    rw [(hspec (pageToBlobOpaque p) (List.mem_map_of_mem _ hp)).1]
    exact whiteFlatten_idem p.raster

lemma requiredBufW_sample : requiredBufW sampleStage 1 = 148 := by
  norm_num [requiredBufW, fitTarget, jround, jfloor, A5_ASPECT, sampleStage,
    max_def]

lemma requiredBufH_sample : requiredBufH sampleStage 1 = 210 := by
  norm_num [requiredBufH, fitTarget, jround, jfloor, A5_ASPECT, sampleStage,
    max_def]

lemma samplePageFit_dims :
    ∀ p ∈ [samplePageFit],
      p.raster.width = (requiredBufW sampleStage 1).toNat ∧
      p.raster.height = (requiredBufH sampleStage 1).toNat ∧
      p.raster.wf := by
  intro p hp
  simp only [List.mem_singleton] at hp
  subst hp
  refine ⟨?_, ?_, blankRaster_wf 148 210⟩
  · rw [requiredBufW_sample]
    rfl
  · rw [requiredBufH_sample]
    rfl

theorem save_load_roundtrip_witness :
    ∃ (store' : Store) (rec : SessionRecord),
      saveSession "s" ([samplePageFit].map pageToBlobOpaque) 0 ([] : Store) =
          .ok store' ∧
      loadSession "s" store' = .ok (some rec) ∧
      (restoreFromRecord sampleStage 1 rec).map
          (fun p => whiteFlatten p.raster) =
        [samplePageFit].map (fun p => whiteFlatten p.raster) :=
  save_load_roundtrip sampleStage 1 0 "s" [samplePageFit] []
    (by simp) samplePageFit_dims

end Whiteboard
